import Mathlib

/-!
Verification of `forest-express-sequelize` (schema builder + resources getter).

Shallow embedding of `src/services/resources-getter.js`, which contains two
modules: the `ResourcesGetter` constructor and (second half of the file) the
schema-builder `module.exports = function (model, opts)`.

Conventions of the embedding:
* JavaScript `undefined`/`null`-able values become `Option`.
* The Sequelize `DataTypes` `instanceof` tests are embedded by the inductive
  `NativeType`: each constructor corresponds to one branch of `getTypeFor`,
  and `wrapped` corresponds to a type object carrying an inner `type`
  property (array-like types), which `getTypeFor` resolves recursively.
* External collaborators (`OperatorValueParser`, `SearchBuilder`,
  `QueryBuilder`, `CompositeKeysManager`) are black boxes per the spec; the
  embedding records their call (receiver arguments) symbolically.
* Bluebird promises disappear: the promise chains in the source are
  sequential data flow, embedded as plain function composition; the
  rejection path of `getSegment` (a thrown `TypeError`) becomes `Except`.
-/

namespace ForestSequelize

/-- A JavaScript value as it appears in validation constraints and default
values: a number, a string, or an array of numbers (the `len: [min, max]`
form). -/
inductive JVal where
  | i (n : Int)
  | s (t : String)
  | li (xs : List Int)
deriving DecidableEq, Repr

/-- JavaScript truthiness for the values of `JVal`: `0` and `""` are falsy,
arrays (objects) are always truthy. -/
def jvTruthy : JVal → Bool
  | .i n => n != 0
  | .s t => t != ""
  | .li _ => true

/-- JavaScript indexing `v[n]` on a `JVal`: only arrays yield an element
(`undefined` otherwise; string indexing is not needed by the source, which
only indexes the `len` constraint). -/
def jvIndex : JVal → Nat → Option JVal
  | .li xs, n => (xs.get? n).map .i
  | .i _, _ => none
  | .s _, _ => none

/-- The native column type, embedding the outcome of the chain of
`instanceof DataTypes.X` tests in `getTypeFor`. `wrapped` is a type whose
object has a `.type` property (`column.type.type`), e.g. an ARRAY type;
`other` is any unrecognized type (no branch matches, no `.type` property). -/
inductive NativeType where
  | STRING | TEXT | UUID | CITEXT | ENUM | BOOLEAN | DATEONLY | DATE
  | INTEGER | FLOAT | DOUBLE | BIGINT | DECIMAL | JSONB | JSON | TIME
  | wrapped (inner : NativeType)
  | other
deriving DecidableEq, Repr

/-- A semantic field type: either a tag string (exactly the strings returned
by `getTypeFor`) or a single-element array `[inner]` denoting "many"
cardinality (the inner value is `Option` because `getTypeFor` can return
`undefined`). -/
inductive FieldType where
  | tag (t : String)
  | arr (inner : Option FieldType)

def FieldType.decEq : (a b : FieldType) → Decidable (a = b)
  | .tag s, .tag t =>
    if h : s = t then .isTrue (by rw [h]) else .isFalse (by simp [h])
  | .tag _, .arr _ => .isFalse (by simp)
  | .arr _, .tag _ => .isFalse (by simp)
  | .arr none, .arr none => .isTrue rfl
  | .arr none, .arr (some _) => .isFalse (by simp)
  | .arr (some _), .arr none => .isFalse (by simp)
  | .arr (some x), .arr (some y) =>
    match FieldType.decEq x y with
    | .isTrue h => .isTrue (by rw [h])
    | .isFalse h => .isFalse (by simp [h])

instance : DecidableEq FieldType := FieldType.decEq

def FieldType.render : FieldType → String
  | .tag t => t
  | .arr none => "[undefined]"
  | .arr (some x) => "[" ++ FieldType.render x ++ "]"

instance : Repr FieldType := ⟨fun t _ => Std.Format.text t.render⟩

/-- `getTypeFor(column)` of the schema builder, on the column's native type. -/
def getTypeFor : NativeType → Option FieldType
  | .STRING => some (.tag "String")
  | .TEXT => some (.tag "String")
  | .UUID => some (.tag "String")
  | .CITEXT => some (.tag "String")
  | .ENUM => some (.tag "Enum")
  | .BOOLEAN => some (.tag "Boolean")
  | .DATEONLY => some (.tag "Dateonly")
  | .DATE => some (.tag "Date")
  | .INTEGER => some (.tag "Number")
  | .FLOAT => some (.tag "Number")
  | .DOUBLE => some (.tag "Number")
  | .BIGINT => some (.tag "Number")
  | .DECIMAL => some (.tag "Number")
  | .JSONB => some (.tag "Json")
  | .JSON => some (.tag "Json")
  | .TIME => some (.tag "Time")
  | .wrapped inner => some (.arr (getTypeFor inner))
  | .other => none

/-- The `column.validate` object. Each constraint is `none` when absent;
when present it carries the resolved value (the source's
`column.validate.X.args || column.validate.X` collapse: value given either
bare or as `{args, msg}`) together with the optional `msg`. `isRule` embeds
`validate.is` (a pattern constraint, stored via `toString()`); the source
skips it when it is given as an array `[pattern, flags]`, embedded by the
`IsVal.arrv` constructor. -/
inductive IsVal where
  | strv (s : String)
  | arrv (ss : List String)
deriving DecidableEq, Repr

structure Validate where
  min : Option (Int × Option String) := none
  max : Option (Int × Option String) := none
  isBefore : Option (String × Option String) := none
  isAfter : Option (String × Option String) := none
  len : Option (JVal × Option String) := none
  contains : Option (String × Option String) := none
  isRule : Option (IsVal × Option String) := none
deriving DecidableEq, Repr

/-- A column descriptor (input to the schema builder): one entry of
`model.attributes`. `field` is the database column name, `fieldName` the
attribute name. `references` embeds the truthiness of `column.references`,
`autoGenerated` the `column._autoGenerated === true` test, and `allowNull`
is `Option` so that `allowNull === false` is `allowNull = some false`. -/
structure Column where
  fieldName : String
  field : String
  type : NativeType
  primaryKey : Bool := false
  allowNull : Option Bool := none
  autoGenerated : Bool := false
  defaultValue : Option JVal := none
  validate : Option Validate := none
  references : Bool := false
  values : List String := []
deriving DecidableEq, Repr

/-- The four Sequelize association kinds. -/
inductive AssocType where
  | BelongsTo | HasOne | HasMany | BelongsToMany
deriving DecidableEq, Repr

/-- An association descriptor: one entry of `model.associations`.
`targetName` is `association.target.name`, `targetAttributes` the target
model's attribute map (keyed by attribute name), `identifierField` the
database column name of the foreign key this association implies. -/
structure Association where
  associationAccessor : String
  associationType : AssocType
  targetName : String
  targetAttributes : List Column := []
  targetKey : String := ""
  foreignKey : String := ""
  identifierField : String := ""
deriving DecidableEq, Repr

/-- A model: the metadata the two modules read. `primaryKeys` is
`_.keys(model.primaryKeys)`, in declaration order. -/
structure Model where
  name : String
  attributes : List Column := []
  associations : List Association := []
  primaryKeys : List String := []
deriving DecidableEq, Repr

/-- One validation rule pushed by `getValidations` (`{type, value?, message?}`).
`vtype` is the `type` property (a Lean field cannot shadow the structure
eta-projection conventions conveniently, the source name is `type`). -/
structure Validation where
  vtype : String
  value : Option JVal := none
  message : Option String := none
deriving DecidableEq, Repr

/-- The `is present` rule: pushed when `column.allowNull === false`. -/
def presencePart (c : Column) : List Validation :=
  if c.allowNull = some false then [{ vtype := "is present" }] else []

def minPart (v : Validate) : List Validation :=
  match v.min with
  | some (n, msg) => [{ vtype := "is greater than", value := some (.i n), message := msg }]
  | none => []

def maxPart (v : Validate) : List Validation :=
  match v.max with
  | some (n, msg) => [{ vtype := "is less than", value := some (.i n), message := msg }]
  | none => []

def isBeforePart (v : Validate) : List Validation :=
  match v.isBefore with
  | some (d, msg) => [{ vtype := "is before", value := some (.s d), message := msg }]
  | none => []

def isAfterPart (v : Validate) : List Validation :=
  match v.isAfter with
  | some (d, msg) => [{ vtype := "is after", value := some (.s d), message := msg }]
  | none => []

/-- The `len` branch of `getValidations`: `if (length[0] && length[1])`
pushes the two bounded rules, otherwise a single `is longer than` rule whose
value is the whole constraint value. Note the truthiness test: a bound equal
to `0`, or a missing index (scalar constraint), selects the `else` branch. -/
def lenPart (v : Validate) : List Validation :=
  match v.len with
  | none => []
  | some (L, msg) =>
    match jvIndex L 0, jvIndex L 1 with
    | some a, some b =>
      if jvTruthy a && jvTruthy b then
        [{ vtype := "is longer than", value := some a, message := msg },
         { vtype := "is shorter than", value := some b, message := msg }]
      else
        [{ vtype := "is longer than", value := some L, message := msg }]
    | _, _ => [{ vtype := "is longer than", value := some L, message := msg }]

def containsPart (v : Validate) : List Validation :=
  match v.contains with
  | some (s, msg) => [{ vtype := "contains", value := some (.s s), message := msg }]
  | none => []

/-- The `validate.is` branch: skipped when the constraint is an array
(`!_.isArray(column.validate.is)`); otherwise the value is its `toString()`. -/
def isRulePart (v : Validate) : List Validation :=
  match v.isRule with
  | some (.strv s, msg) => [{ vtype := "is like", value := some (.s s), message := msg }]
  | some (.arrv _, _) => []
  | none => []

/-- `getValidations(column)`: empty for autogenerated columns; otherwise the
presence rule, then (when a `validate` object exists) the per-constraint
rules in source order: min, max, isBefore, isAfter, len, contains, is. -/
def getValidations (c : Column) : List Validation :=
  if c.autoGenerated then []
  else
    presencePart c ++
      match c.validate with
      | none => []
      | some v =>
        minPart v ++ maxPart v ++ isBeforePart v ++ isAfterPart v ++
          lenPart v ++ containsPart v ++ isRulePart v

/-- `getIsRequired(column)`. -/
def getIsRequired (c : Column) : Bool :=
  c.autoGenerated != true && c.allowNull = some false

/-- A field schema as pushed into `fields` (column or association form).
Optional JS properties are `Option`; `primaryKey`/`isRequired` are `Bool`
(absent = `false`). Associations set `inverseOf` to `null`, columns leave it
absent; neither claim distinguishes the two, so it is not carried. -/
structure FieldSchema where
  field : String
  type : Option FieldType
  columnName : Option String := none
  primaryKey : Bool := false
  enums : Option (List String) := none
  isRequired : Bool := false
  defaultValue : Option JVal := none
  validations : Option (List Validation) := none
  reference : Option String := none
deriving DecidableEq, Repr

/-- `getSchemaForColumn(column)` (the enclosing `model` supplies the
primary-key names used to suppress primary-key default values). -/
def getSchemaForColumn (model : Model) (column : Column) : FieldSchema :=
  let t := getTypeFor column.type
  let vs := getValidations column
  { field := column.fieldName
    type := t
    columnName := some column.field
    primaryKey := column.primaryKey
    enums := if t = some (.tag "Enum") then some column.values else none
    isRequired := getIsRequired column
    defaultValue :=
      match column.defaultValue with
      | some dv => if column.fieldName ∈ model.primaryKeys then none else some dv
      | none => none
    validations := if vs = [] then none else some vs }

/-- `getTypeForAssociation(association)`. -/
def getTypeForAssociation (a : Association) : Option FieldType :=
  let attr := a.targetAttributes.find? (fun c => c.fieldName == a.targetKey)
  let t : Option FieldType :=
    match attr with
    | some attr => getTypeFor attr.type
    | none => some (.tag "Number")
  match a.associationType with
  | .BelongsTo => t
  | .HasOne => t
  | .HasMany => some (.arr t)
  | .BelongsToMany => some (.arr t)

/-- `getSchemaForAssociation(association)` (without its side effect on
`fieldNamesToExclude`, computed separately below). -/
def getSchemaForAssociation (a : Association) : FieldSchema :=
  { field := a.associationAccessor
    type := getTypeForAssociation a
    reference := some (a.targetName ++ "." ++ a.foreignKey) }

/-- `fieldNamesToExclude`: the identifier fields pushed by
`getSchemaForAssociation` for each BelongsTo association. -/
def fieldNamesToExclude (model : Model) : List String :=
  model.associations.filterMap fun a =>
    if a.associationType = .BelongsTo then some a.identifierField else none

/-- The removal predicate of the final
`_.remove(fields, f => includes(fieldNamesToExclude, f.columnName) && !f.primaryKey)`:
association schemas have no `columnName` (`undefined` is never an element of
the exclusion list). -/
def isExcludedField (excl : List String) (f : FieldSchema) : Bool :=
  match f.columnName with
  | some c => excl.contains c && !f.primaryKey
  | none => false

/-- The schema produced by the builder. -/
structure Schema where
  name : String
  idField : Option String
  primaryKeys : List String
  isCompositePrimary : Bool
  fields : List FieldSchema
deriving Repr

/-- The schema builder `module.exports = function (model, opts)`: column
schemas (skipping non-primary-key columns with a truthy `references`), then
association schemas, then the BelongsTo foreign-key exclusion, then the
composite-primary detection. The per-item `try/catch` of the source cannot
fire in the embedding (all branches are total). -/
def buildSchema (model : Model) : Schema :=
  let colFields := model.attributes.filterMap fun column =>
    if column.references && !column.primaryKey then none
    else some (getSchemaForColumn model column)
  let assocFields := model.associations.map getSchemaForAssociation
  let excl := fieldNamesToExclude model
  let fields := (colFields ++ assocFields).filter fun f => !isExcludedField excl f
  let primaryKeys := model.primaryKeys
  let isCompositePrimary := decide (primaryKeys.length > 1)
  let idField :=
    if primaryKeys.length > 1 then some "forestCompositePrimary"
    else primaryKeys.head?
  { name := model.name
    idField := idField
    primaryKeys := primaryKeys
    isCompositePrimary := isCompositePrimary
    fields := fields }

/-! ### Resources Getter -/

/-- The request parameters read by `ResourcesGetter` (all optional, the HTTP
layer may omit any). `fields` maps a model name to a comma-joined field
list, `filter` maps a field-or-association-path key to a comma-joined value
list. -/
structure Params where
  fields : Option (List (String × String)) := none
  filter : Option (List (String × String)) := none
  filterType : Option String := none
  search : Option String := none
  sort : Option String := none
  segment : Option String := none
  timezone : Option String := none
deriving DecidableEq, Repr

/-- The symbolic record of a call
`new OperatorValueParser().perform(model, key, value, params.timezone)`:
the parser is an external collaborator, so the embedding keeps the exact
arguments of the call as the condition value. -/
structure ParsedCall where
  modelName : String
  key : String
  value : String
  timezone : Option String
deriving DecidableEq, Repr

/-- One elementary condition `{ [key]: parsedValue }` pushed into
`conditions` by `handleFilterParams`. -/
structure ElemCond where
  key : String
  value : ParsedCall
deriving DecidableEq, Repr

/-- A where-clause value. `comb c conds` is the object `{ [c]: conds }`
returned by `handleFilterParams` when a filter type is given (`c` is
`'$' + params.filterType`); `empty` is the bare `{}` it returns otherwise;
`andL` is the `{ $and: [...] }` built by `getWhere`; `search` records the
`new SearchBuilder(model, opts, params, fieldNamesRequested).perform()`
call symbolically; `raw` stands for an externally supplied condition value
(e.g. a fixed segment where-condition). No constructor carries a function,
so a function value can never occur inside a where-clause. -/
inductive Where where
  | empty
  | comb (c : String) (conds : List ElemCond)
  | andL (xs : List Where)
  | search (modelName : String) (term : String) (fieldNames : Option (List String))
  | raw (tag : String)

/-- JavaScript `s.split(sep)` for a single-character separator (the source
only splits on `','`, `':'` and `'.'`): splitting the empty string yields
`[""]`. -/
def splitOnCharAux (sep : Char) : List Char → List Char → List String
  | [], acc => [⟨acc.reverse⟩]
  | c :: cs, acc =>
    if c = sep then ⟨acc.reverse⟩ :: splitOnCharAux sep cs []
    else splitOnCharAux sep cs (c :: acc)

def jsSplit (s : String) (sep : Char) : List String :=
  splitOnCharAux sep s.toList []

/-- JavaScript `s.indexOf(c) !== -1`. -/
def hasChar (s : String) (c : Char) : Bool :=
  s.toList.contains c

/-- JavaScript `key.replace(':', '.')`: a string pattern replaces only the
first occurrence. -/
def replaceFirstColonAux : List Char → List Char
  | [] => []
  | c :: cs => if c = ':' then '.' :: cs else c :: replaceFirstColonAux cs

def replaceFirstColon (s : String) : String :=
  ⟨replaceFirstColonAux s.toList⟩

/-- The key rewriting at the top of the `_.each` body of
`handleFilterParams`: an association path `a:b` becomes the joined-table
reference `$a.b$`. -/
def rewriteKey (k : String) : String :=
  if hasChar k ':' then "$" ++ replaceFirstColon k ++ "$" else k

/-- The `conditions` array built by `handleFilterParams`: for each filter
entry the key is rewritten, the comma-joined value string is split, and each
value yields one elementary condition via the operator-value parser. -/
def filterConditions (modelName : String) (tz : Option String)
    (filter : List (String × String)) : List ElemCond :=
  filter.foldl
    (fun acc kv =>
      acc ++ (jsSplit kv.2 ',').map fun v =>
        { key := rewriteKey kv.1
          value := { modelName := modelName, key := rewriteKey kv.1, value := v, timezone := tz } })
    []

/-- `handleFilterParams()`: the conditions are attached to the returned
object only under `'$' + params.filterType` when `params.filterType` is
truthy; otherwise the bare `{}` is returned (and the built conditions are
dropped). -/
def handleFilterParams (modelName : String) (filter : List (String × String))
    (filterType : Option String) (tz : Option String) : Where :=
  let conditions := filterConditions modelName tz filter
  match filterType with
  | some t => if t = "" then .empty else .comb ("$" ++ t) conditions
  | none => .empty

/-- The elementary conditions carried by a filter where-clause object: the
list attached under the combinator key, nothing for the other forms. -/
def whereConds : Where → List ElemCond
  | .comb _ conds => conds
  | _ => []

/-- Lodash `_.union`: concatenation keeping the first occurrence of each
element. -/
def unionAux (acc : List String) : List String → List String
  | [] => acc
  | x :: xs => unionAux (if acc.contains x then acc else acc ++ [x]) xs

def jsUnion (a b c : List String) : List String :=
  unionAux [] (a ++ b ++ c)

/-- `params.fields[model.name]` guarded by the truthiness of
`params.fields` (an empty string value is falsy and yields `none` too,
handled at the use site). -/
def fieldsFor (params : Params) (modelName : String) : Option String :=
  params.fields.bind fun fl => (fl.find? (fun kv => kv.1 == modelName)).map (·.2)

/-- The associations pushed into `associationsForQuery`: the prefix before
`':'` of each filter key containing one, then the prefix before `'.'` of a
dotted sort parameter. -/
def associationsForQuery (params : Params) : List String :=
  (params.filter.getD []).filterMap
    (fun kv => if hasChar kv.1 ':' then some ((jsSplit kv.1 ':').headD "") else none)
  ++ match params.sort with
     | some s => if hasChar s '.' then [(jsSplit s '.').headD ""] else []
     | none => []

/-- The IIFE `fieldNamesRequested`: `null` when no (truthy) field list is
requested for this model, else the union of the first primary-key name, the
requested fields, and the associations needed by filters and sort. -/
def fieldNamesRequested (model : Model) (params : Params) : Option (List String) :=
  match fieldsFor params model.name with
  | none => none
  | some fstr =>
    if fstr = "" then none
    else
      some (jsUnion (model.primaryKeys.take 1) (jsSplit fstr ',') (associationsForQuery params))

/-- A segment's where-condition: a fixed value, or a function of the request
parameters (the promise it returns is embedded as the resolved value). -/
inductive SegWhere where
  | val (w : Where)
  | fn (f : Params → Where)

/-- A declared segment `{name, scope?, where?}`. -/
structure Segment where
  name : String
  scope : Option String := none
  whereSpec : Option SegWhere := none

/-- The schema entry the getter reads from the registry (the registry may
carry more than the builder produced, e.g. segments and search fields). -/
structure CollectionSchema where
  name : String
  isCompositePrimary : Bool := false
  segments : Option (List Segment) := none
  searchFields : Option (List String) := none

/-- The error thrown by `getSegment` when `_.find` returns `undefined` and
`segment.scope` is read. -/
inductive JsError where
  | typeError (msg : String)
deriving DecidableEq, Repr

/-- `getSegment()`: when `schema.segments` and `params.segment` are both
truthy (an array is truthy even when empty; an empty string is falsy), look
the segment up by name; a failed lookup throws a `TypeError` on the
`segment.scope` property read. Returns `(segmentScope, segmentWhere)`. -/
def getSegment (schema : CollectionSchema) (params : Params) :
    Except JsError (Option String × Option SegWhere) :=
  match schema.segments, params.segment with
  | some segs, some sname =>
    if sname = "" then .ok (none, none)
    else
      match segs.find? (fun sg => sg.name == sname) with
      | some sg => .ok (sg.scope, sg.whereSpec)
      | none => .error (.typeError "Cannot read property scope of undefined")
  | _, _ => .ok (none, none)

/-- `getSegmentCondition()`: a function-valued segment where-condition is
applied to the request parameters and its (promised) result substituted; a
fixed value is kept as is. -/
def resolveSegWhere (sw : Option SegWhere) (params : Params) : Option Where :=
  match sw with
  | none => none
  | some (.val w) => some w
  | some (.fn f) => some (f params)

/-- Truthiness of `params.search` (an empty string is falsy). -/
def searchTruthy (params : Params) : Bool :=
  match params.search with
  | some s => s != ""
  | none => false

/-- `getWhere()`: `{ $and: [...] }` collecting, in order, the search-builder
condition, the filter condition, and the resolved segment condition. -/
def getWhere (modelName : String) (params : Params)
    (fnr : Option (List String)) (segWhere : Option Where) : Where :=
  .andL
    ((match params.search with
      | some s => if s = "" then [] else [Where.search modelName s fnr]
      | none => [])
     ++ (match params.filter with
         | some f => [handleFilterParams modelName f params.filterType params.timezone]
         | none => [])
     ++ (match segWhere with
         | some w => [w]
         | none => []))

/-- The symbolic record of `queryBuilder.getIncludes(model, fieldNamesRequested)`. -/
structure IncludeCall where
  modelName : String
  fieldNamesRequested : Option (List String)

/-- Symbolic records of `queryBuilder.getOrder()` / `getSkip()` / `getLimit()`
(functions of the request parameters the query builder was built with). -/
structure OrderCall where
  sort : Option String

structure SkipCall where
  timestamp : Option String := none

structure LimitCall where
  timestamp : Option String := none

/-- One option object passed to `count` / `findAll`. The count options carry
only `include` and `where`; the findAll options additionally carry `order`,
`offset` and `limit`. -/
structure QueryOpts where
  whereCond : Where
  includeSpec : IncludeCall
  order : Option OrderCall := none
  offset : Option SkipCall := none
  limit : Option LimitCall := none

/-- The fully assembled query plan: the scope the two queries run under
(`none` = `unscoped()`) and the two option objects. -/
structure Plan where
  scope : Option String
  countOpts : QueryOpts
  findAllOpts : QueryOpts

/-- `perform()` up to (and excluding) query execution: resolve the segment
(possibly throwing on an unknown segment name), resolve its where-condition,
then build the count options and the findAll options exactly as
`getAndCountRecords` does (each calls `getWhere()` and
`queryBuilder.getIncludes(...)` anew; both calls are pure and deterministic).
The smart-field search hooks (external mutators of the two option objects)
and the search-field narrowing (which only rewrites dead local state and
emits warnings) are outside the plan. -/
def performPlan (model : Model) (schema : CollectionSchema) (params : Params) :
    Except JsError Plan :=
  (getSegment schema params).map fun seg =>
    let segWhere := resolveSegWhere seg.2 params
    let fnr := fieldNamesRequested model params
    let countOpts : QueryOpts :=
      { includeSpec := { modelName := model.name, fieldNamesRequested := fnr }
        whereCond := getWhere model.name params fnr segWhere }
    let findAllOpts : QueryOpts :=
      { whereCond := getWhere model.name params fnr segWhere
        includeSpec := { modelName := model.name, fieldNamesRequested := fnr }
        order := some { sort := params.sort }
        offset := some {}
        limit := some {} }
    { scope :=
        match seg.1 with
        | some s => if s = "" then none else some s
        | none => none
      countOpts := countOpts
      findAllOpts := findAllOpts }

/-- A fetched record: an attribute map (property name to value). -/
abbrev Rec := List (String × String)

/-- Property lookup `record[k]`. -/
def getAttr (r : Rec) (k : String) : Option String :=
  (r.find? (fun p => p.1 == k)).map (·.2)

/-- Property assignment `record[k] = v`: a record holds at most one property
per name, so the assignment overwrites the property in place when the name
exists and appends a new property otherwise. -/
def setAttr (r : Rec) (k : String) (v : String) : Rec :=
  match r with
  | [] => [(k, v)]
  | p :: ps => if p.1 == k then (k, v) :: ps else p :: setAttr ps k v

/-- The `.spread` post-processing of `perform()`: when the schema is
composite-primary, attach to every record the value computed by
`new CompositeKeysManager(model, schema, record).createCompositePrimary()`
(the manager is an external collaborator, embedded as the function `ckm`);
otherwise return the records untouched. -/
def postProcessRecords (isCompositePrimary : Bool) (ckm : Rec → String)
    (records : List Rec) : List Rec :=
  if isCompositePrimary then
    records.map fun r => setAttr r "forestCompositePrimary" (ckm r)
  else records

/-! ### Concrete fixtures used by the witnesses -/

/-- Classifier for the validation rules that can only come from the `len`
constraint. -/
def isLenType (vl : Validation) : Bool :=
  vl.vtype == "is longer than" || vl.vtype == "is shorter than"

/-- A column whose length constraint has a zero lower bound: `len: [0, 10]`. -/
def lenZeroColumn : Column :=
  { fieldName := "title", field := "title", type := .STRING
    validate := some { len := some (.li [0, 10], none) } }

/-- A column with `len: [2, 10]`. -/
def lenRangeColumn : Column :=
  { fieldName := "title", field := "title", type := .STRING
    validate := some { len := some (.li [2, 10], none) } }

/-- A model declaring two primary keys. -/
def compositeModel : Model :=
  { name := "UserProject", primaryKeys := ["userId", "projectId"] }

/-- A model declaring a single primary key. -/
def articleModel : Model := { name := "Article", primaryKeys := ["id"] }

/-- A primary-key column that is also the foreign-key column of a BelongsTo
association. -/
def authorIdColumn : Column :=
  { fieldName := "authorId", field := "author_id", type := .INTEGER, primaryKey := true }

def authorAssociation : Association :=
  { associationAccessor := "author", associationType := .BelongsTo
    targetName := "Author", foreignKey := "id", identifierField := "author_id" }

def belongsToModel : Model :=
  { name := "Book", attributes := [authorIdColumn]
    associations := [authorAssociation], primaryKeys := ["authorId"] }

/-- A request asking for field `title` of `Article`, filtering on the
association path `author:name` and sorting on a dotted key. -/
def articleParams : Params :=
  { fields := some [("Article", "title")]
    filter := some [("author:name", "bob")]
    sort := some "author.createdAt" }

/-- A schema with one segment whose where-condition is a function. -/
def segFnSchema : CollectionSchema :=
  { name := "Article"
    segments := some
      [{ name := "mine", whereSpec := some (.fn fun _ => Where.raw "resolvedSegmentCondition") }] }

def segParams : Params := { segment := some "mine" }

/-- A plain request and schema (no segment, no filter, no search). -/
def emptyParams : Params := {}

def plainSchema : CollectionSchema := { name := "Article" }

def compositeSchema : CollectionSchema := { name := "UserProject", isCompositePrimary := true }

def sampleRecord : Rec := [("userId", "1"), ("projectId", "2")]

def sampleCkm : Rec → String := fun _ => "1-2"

/-- A schema declaring one segment, and a request naming a different one. -/
def segMissingSchema : CollectionSchema :=
  { name := "Article", segments := some [{ name := "published" }] }

def segMissingParams : Params := { segment := some "draft" }

/-! ### Helper lemmas -/

theorem foldl_append_eq {α β : Type} (g : α → List β) (l : List α) (acc : List β) :
    l.foldl (fun a x => a ++ g x) acc = acc ++ l.flatMap g := by
  induction l generalizing acc with
  | nil => simp
  | cons x xs ih => simp [ih, List.append_assoc]

theorem filterConditions_eq (mn : String) (tz : Option String)
    (filter : List (String × String)) :
    filterConditions mn tz filter =
      filter.flatMap fun kv => (jsSplit kv.2 ',').map fun v =>
        { key := rewriteKey kv.1
          value := { modelName := mn, key := rewriteKey kv.1, value := v, timezone := tz } } := by
  unfold filterConditions
  exact (foldl_append_eq _ filter []).trans (by simp)

theorem mem_unionAux (x : String) (l : List String) (acc : List String)
    (h : x ∈ acc ∨ x ∈ l) : x ∈ unionAux acc l := by
  induction l generalizing acc with
  | nil =>
    rw [unionAux]
    exact h.resolve_right (by simp)
  | cons y ys ih =>
    rw [unionAux]
    apply ih
    rcases h with h | h
    · left
      split
      · exact h
      · exact List.mem_append_left _ h
    · rcases List.mem_cons.mp h with rfl | h
      · left
        by_cases hc : acc.contains x
        · rw [if_pos hc]
          simpa using hc
        · rw [if_neg hc]
          simp
      · right
        exact h

theorem mem_jsUnion (x : String) (a b c : List String)
    (h : x ∈ a ∨ x ∈ b ∨ x ∈ c) : x ∈ jsUnion a b c := by
  apply mem_unionAux
  right
  simpa [or_assoc] using h

theorem getAttr_cons (p : String × String) (ps : Rec) (q : String) :
    getAttr (p :: ps) q = if p.1 = q then some p.2 else getAttr ps q := by
  unfold getAttr
  rw [List.find?_cons]
  by_cases h : p.1 = q
  · simp [h]
  · have hb : (p.1 == q) = false := by simp [h]
    rw [hb, if_neg h]

theorem getAttr_setAttr_same (r : Rec) (k v : String) :
    getAttr (setAttr r k v) k = some v := by
  induction r with
  | nil =>
    show getAttr [(k, v)] k = some v
    rw [getAttr_cons]
    simp
  | cons p ps ih =>
    by_cases h : p.1 = k
    · simp only [setAttr, h, beq_self_eq_true, if_true]
      rw [getAttr_cons]
      simp
    · simp only [setAttr, beq_iff_eq, h, if_false]
      rw [getAttr_cons, if_neg h]
      exact ih

theorem getAttr_setAttr_ne (r : Rec) (k v q : String) (hq : q ≠ k) :
    getAttr (setAttr r k v) q = getAttr r q := by
  induction r with
  | nil =>
    show getAttr [(k, v)] q = getAttr [] q
    rw [getAttr_cons, if_neg (Ne.symm hq)]
  | cons p ps ih =>
    by_cases h : p.1 = k
    · have hpq : ¬ p.1 = q := by rw [h]; exact Ne.symm hq
      simp only [setAttr, h, beq_self_eq_true, if_true]
      rw [getAttr_cons, getAttr_cons, if_neg (Ne.symm hq), if_neg hpq]
    · simp only [setAttr, beq_iff_eq, h, if_false]
      rw [getAttr_cons, getAttr_cons]
      by_cases h2 : p.1 = q
      · rw [if_pos h2, if_pos h2]
      · rw [if_neg h2, if_neg h2]
        exact ih

/-- Any member of `associationsForQuery` reaches the computed field set. -/
theorem assoc_mem_fieldNamesRequested (model : Model) (params : Params)
    (L : List String) (x : String)
    (hL : fieldNamesRequested model params = some L)
    (hx : x ∈ associationsForQuery params) : x ∈ L := by
  unfold fieldNamesRequested at hL
  cases hf : fieldsFor params model.name with
  | none =>
    rw [hf] at hL
    exact absurd hL (by simp)
  | some fstr =>
    rw [hf] at hL
    by_cases he : fstr = ""
    · simp [he] at hL
    · simp only [he, if_false, Option.some.injEq] at hL
      rw [← hL]
      exact mem_jsUnion _ _ _ _ (Or.inr (Or.inr hx))

/-! ### C1 -/

/-- C1: a model declaring more than one primary key gets
`isCompositePrimary = true` and the synthetic `idField`
`forestCompositePrimary` (hence, as long as no real column is named like
the marker, `idField` matches no real column name); a model with exactly
one primary key gets `isCompositePrimary = false` and that key as
`idField`. -/
theorem compositePrimary_idField (model : Model) :
    (1 < model.primaryKeys.length →
      (buildSchema model).isCompositePrimary = true ∧
      (buildSchema model).idField = some "forestCompositePrimary" ∧
      ∀ c ∈ model.attributes, c.field ≠ "forestCompositePrimary" →
        (buildSchema model).idField ≠ some c.field) ∧
    (model.primaryKeys.length = 1 →
      (buildSchema model).isCompositePrimary = false ∧
      (buildSchema model).idField = model.primaryKeys.head?) := by
  constructor
  · intro h
    refine ⟨by simp [buildSchema, h], by simp [buildSchema, h], ?_⟩
    intro c _ hne hcontra
    rw [show (buildSchema model).idField = some "forestCompositePrimary" by
      simp [buildSchema, h]] at hcontra
    exact hne (Option.some_injective _ hcontra).symm
  · intro h
    have h2 : ¬ 1 < model.primaryKeys.length := by omega
    exact ⟨by simp [buildSchema, h2], by simp [buildSchema, h2]⟩

theorem compositePrimary_idField_witness :
    (1 < compositeModel.primaryKeys.length ∧
      (buildSchema compositeModel).isCompositePrimary = true ∧
      (buildSchema compositeModel).idField = some "forestCompositePrimary") ∧
    (articleModel.primaryKeys.length = 1 ∧
      (buildSchema articleModel).isCompositePrimary = false ∧
      (buildSchema articleModel).idField = some "id") :=
  ⟨⟨by decide,
    ((compositePrimary_idField compositeModel).1 (by decide)).1,
    ((compositePrimary_idField compositeModel).1 (by decide)).2.1⟩,
   ⟨by decide,
    ((compositePrimary_idField articleModel).2 (by decide)).1,
    ((compositePrimary_idField articleModel).2 (by decide)).2⟩⟩

/-! ### C4 -/

/-- C4: a field schema of the built schema whose column name is the
foreign-key column implied by a BelongsTo association is necessarily a
primary key — equivalently, the foreign-key column is excluded from the
final field list unless it is itself a primary key. -/
theorem belongsTo_foreignKey_excluded (model : Model) (a : Association)
    (ha : a ∈ model.associations) (hb : a.associationType = .BelongsTo)
    (f : FieldSchema) (hf : f ∈ (buildSchema model).fields)
    (hcol : f.columnName = some a.identifierField) :
    f.primaryKey = true := by
  have hmem : a.identifierField ∈ fieldNamesToExclude model := by
    unfold fieldNamesToExclude
    rw [List.mem_filterMap]
    exact ⟨a, ha, by rw [hb]; rfl⟩
  have hf2 : f ∈ ((model.attributes.filterMap fun column =>
      if column.references && !column.primaryKey then none
      else some (getSchemaForColumn model column)) ++
        model.associations.map getSchemaForAssociation).filter
      (fun f => !isExcludedField (fieldNamesToExclude model) f) := hf
  have hkeep : isExcludedField (fieldNamesToExclude model) f = false := by
    simpa using (List.mem_filter.mp hf2).2
  have hkeep2 : ((fieldNamesToExclude model).contains a.identifierField
      && !f.primaryKey) = false := by
    have : (match f.columnName with
        | some c => (fieldNamesToExclude model).contains c && !f.primaryKey
        | none => false) = false := hkeep
    rw [hcol] at this
    exact this
  have hcont : (fieldNamesToExclude model).contains a.identifierField = true :=
    List.elem_eq_true_of_mem hmem
  rw [hcont] at hkeep2
  simpa using hkeep2

theorem belongsTo_foreignKey_excluded_witness :
    authorAssociation ∈ belongsToModel.associations ∧
    getSchemaForColumn belongsToModel authorIdColumn ∈ (buildSchema belongsToModel).fields ∧
    (getSchemaForColumn belongsToModel authorIdColumn).columnName =
      some authorAssociation.identifierField ∧
    (getSchemaForColumn belongsToModel authorIdColumn).primaryKey = true :=
  ⟨by decide, by decide, by decide,
    belongsTo_foreignKey_excluded belongsToModel authorAssociation (by decide) (by decide)
      (getSchemaForColumn belongsToModel authorIdColumn) (by decide) (by decide)⟩

/-! ### C3 -/

theorem filter_isLenType_presencePart (c : Column) :
    (presencePart c).filter isLenType = [] := by
  unfold presencePart
  by_cases h : c.allowNull = some false
  · rw [if_pos h]
    rfl
  · rw [if_neg h]
    rfl

theorem filter_isLenType_minPart (v : Validate) :
    (minPart v).filter isLenType = [] := by
  unfold minPart
  cases h : v.min with
  | none =>
    simp only [h]
    rfl
  | some p =>
    obtain ⟨n, m⟩ := p
    simp only [h]
    rfl

theorem filter_isLenType_maxPart (v : Validate) :
    (maxPart v).filter isLenType = [] := by
  unfold maxPart
  cases h : v.max with
  | none =>
    simp only [h]
    rfl
  | some p =>
    obtain ⟨n, m⟩ := p
    simp only [h]
    rfl

theorem filter_isLenType_isBeforePart (v : Validate) :
    (isBeforePart v).filter isLenType = [] := by
  unfold isBeforePart
  cases h : v.isBefore with
  | none =>
    simp only [h]
    rfl
  | some p =>
    obtain ⟨d, m⟩ := p
    simp only [h]
    rfl

theorem filter_isLenType_isAfterPart (v : Validate) :
    (isAfterPart v).filter isLenType = [] := by
  unfold isAfterPart
  cases h : v.isAfter with
  | none =>
    simp only [h]
    rfl
  | some p =>
    obtain ⟨d, m⟩ := p
    simp only [h]
    rfl

theorem filter_isLenType_containsPart (v : Validate) :
    (containsPart v).filter isLenType = [] := by
  unfold containsPart
  cases h : v.contains with
  | none =>
    simp only [h]
    rfl
  | some p =>
    obtain ⟨s, m⟩ := p
    simp only [h]
    rfl

theorem filter_isLenType_isRulePart (v : Validate) :
    (isRulePart v).filter isLenType = [] := by
  unfold isRulePart
  cases h : v.isRule with
  | none =>
    simp only [h]
    rfl
  | some p =>
    obtain ⟨iv, m⟩ := p
    cases iv <;> simp only [h] <;> rfl

theorem filter_isLenType_lenPart (v : Validate) :
    (lenPart v).filter isLenType = lenPart v := by
  rw [List.filter_eq_self]
  intro x hx
  unfold lenPart at hx
  split at hx
  · exact absurd hx (List.not_mem_nil x)
  · split at hx
    · split at hx
      · rcases List.mem_cons.mp hx with rfl | hx2
        · rfl
        · rcases List.mem_cons.mp hx2 with rfl | hx3
          · rfl
          · exact absurd hx3 (List.not_mem_nil x)
      · rcases List.mem_cons.mp hx with rfl | hx2
        · rfl
        · exact absurd hx2 (List.not_mem_nil x)
    · rcases List.mem_cons.mp hx with rfl | hx2
      · rfl
      · exact absurd hx2 (List.not_mem_nil x)

/-- The length-derived validation rules of a column (the types
`is longer than` / `is shorter than` only arise from the `len` branch). -/
theorem filter_isLenType_getValidations (c : Column) (v : Validate)
    (hag : c.autoGenerated = false) (hv : c.validate = some v) :
    (getValidations c).filter isLenType = lenPart v := by
  unfold getValidations
  rw [hag, hv]
  simp only [Bool.false_eq_true, if_false, List.filter_append,
    filter_isLenType_presencePart, filter_isLenType_minPart, filter_isLenType_maxPart,
    filter_isLenType_isBeforePart, filter_isLenType_isAfterPart, filter_isLenType_lenPart,
    filter_isLenType_containsPart, filter_isLenType_isRulePart,
    List.nil_append, List.append_nil]

/-- C3 counterexample: the column constraint `len: [0, 10]` gives both a
lower and an upper bound, yet the produced schema holds a single
`is longer than` rule whose value is the whole array — the source tests the
bounds for truthiness (`length[0] && length[1]`), and the lower bound `0` is
falsy. -/
theorem lenValidations_cex :
    getValidations lenZeroColumn =
      [{ vtype := "is longer than", value := some (.li [0, 10]), message := none }] ∧
    ((getValidations lenZeroColumn).filter isLenType).length ≠ 2 := by
  refine ⟨rfl, ?_⟩
  decide

/-- C3 (amended): for a non-autogenerated column with a length constraint,
if the constraint is a two-element array with both bounds truthy (nonzero),
the length-derived validation entries are exactly an `is longer than` entry
with the lower bound and an `is shorter than` entry with the upper bound;
if the constraint is a bare scalar, exactly one `is longer than` entry
(whose value is the scalar). -/
theorem lenValidations_amended (c : Column) (v : Validate)
    (hag : c.autoGenerated = false) (hv : c.validate = some v) :
    (∀ (a b : Int) (msg : Option String),
      v.len = some (.li [a, b], msg) → a ≠ 0 → b ≠ 0 →
      (getValidations c).filter isLenType =
        [{ vtype := "is longer than", value := some (.i a), message := msg },
         { vtype := "is shorter than", value := some (.i b), message := msg }]) ∧
    (∀ (n : Int) (msg : Option String),
      v.len = some (.i n, msg) →
      (getValidations c).filter isLenType =
        [{ vtype := "is longer than", value := some (.i n), message := msg }]) := by
  constructor
  · intro a b msg hlen ha hb
    rw [filter_isLenType_getValidations c v hag hv]
    unfold lenPart
    simp only [hlen]
    simp [jvIndex, jvTruthy, ha, hb]
  · intro n msg hlen
    rw [filter_isLenType_getValidations c v hag hv]
    unfold lenPart
    simp only [hlen]
    rfl

theorem lenValidations_amended_witness :
    (getValidations lenRangeColumn).filter isLenType =
      [{ vtype := "is longer than", value := some (.i 2), message := none },
       { vtype := "is shorter than", value := some (.i 10), message := none }] :=
  (lenValidations_amended lenRangeColumn { len := some (.li [2, 10], none) }
    rfl rfl).1 2 10 none rfl (by decide) (by decide)

/-! ### C2 -/

/-- C2 counterexample: with filter `{ age: "18,21" }` and no declared filter
mode, `handleFilterParams` returns the bare empty object — the elementary
conditions are built but never attached to the returned condition. -/
theorem filterMode_absent_cex :
    handleFilterParams "users" [("age", "18,21")] none none = Where.empty ∧
    whereConds (handleFilterParams "users" [("age", "18,21")] none none) = [] :=
  ⟨rfl, rfl⟩

/-- C2 (amended): each filter key's comma-joined value string is split and
each value yields one elementary condition through the operator-value
parser; when a (truthy) filter mode is declared, all conditions are combined
under the `$mode` combinator key; when no filter mode is given the returned
filter condition is the empty object and the elementary conditions are
discarded. -/
theorem filterParams_amended (mn : String) (filter : List (String × String))
    (t : String) (tz : Option String) (ht : t ≠ "") :
    handleFilterParams mn filter (some t) tz =
      .comb ("$" ++ t)
        (filter.flatMap fun kv => (jsSplit kv.2 ',').map fun v =>
          { key := rewriteKey kv.1
            value := { modelName := mn, key := rewriteKey kv.1, value := v, timezone := tz } }) ∧
    handleFilterParams mn filter none tz = .empty := by
  constructor
  · show (if t = "" then Where.empty
        else Where.comb ("$" ++ t) (filterConditions mn tz filter)) = _
    rw [if_neg ht, filterConditions_eq]
  · rfl

theorem filterParams_amended_witness :
    handleFilterParams "users" [("age", "18,21")] (some "or") none =
      .comb "$or"
        [{ key := "age", value := { modelName := "users", key := "age", value := "18", timezone := none } },
         { key := "age", value := { modelName := "users", key := "age", value := "21", timezone := none } }] :=
  ((filterParams_amended "users" [("age", "18,21")] "or" none (by decide)).1).trans (by rfl)

/-! ### C5 -/

/-- C5: when a (truthy) field list is requested for the model, the computed
set of columns to retrieve contains the model's first primary key, each
explicitly requested field, the association prefix of every filter key
containing the `':'` path separator, and the association prefix of a dotted
sort key; when no field list is requested (absent or empty) the computed
set is `null`. -/
theorem fieldNamesRequested_spec (model : Model) (params : Params) :
    ((fieldsFor params model.name = none ∨ fieldsFor params model.name = some "") →
      fieldNamesRequested model params = none) ∧
    (∀ fstr, fieldsFor params model.name = some fstr → fstr ≠ "" →
      ∃ L, fieldNamesRequested model params = some L ∧
        (∀ pk, model.primaryKeys.head? = some pk → pk ∈ L) ∧
        (∀ f ∈ jsSplit fstr ',', f ∈ L) ∧
        (∀ kv ∈ params.filter.getD [], hasChar kv.1 ':' = true →
          (jsSplit kv.1 ':').headD "" ∈ L) ∧
        (∀ s, params.sort = some s → hasChar s '.' = true →
          (jsSplit s '.').headD "" ∈ L)) := by
  constructor
  · intro h
    unfold fieldNamesRequested
    rcases h with h | h <;> rw [h]
    simp
  · intro fstr hf he
    refine ⟨jsUnion (model.primaryKeys.take 1) (jsSplit fstr ',')
        (associationsForQuery params), ?_, ?_, ?_, ?_, ?_⟩
    · unfold fieldNamesRequested
      rw [hf]
      simp [he]
    · intro pk hpk
      apply mem_jsUnion _ _ _ _ (Or.inl ?_)
      cases hl : model.primaryKeys with
      | nil => rw [hl] at hpk; exact absurd hpk (by simp)
      | cons x xs =>
        rw [hl] at hpk
        obtain rfl : x = pk := by simpa using hpk
        simp
    · intro f hfmem
      exact mem_jsUnion _ _ _ _ (Or.inr (Or.inl hfmem))
    · intro kv hkv hcolon
      apply mem_jsUnion _ _ _ _ (Or.inr (Or.inr ?_))
      unfold associationsForQuery
      apply List.mem_append_left
      rw [List.mem_filterMap]
      exact ⟨kv, hkv, by rw [hcolon]; simp⟩
    · intro s hs hdot
      apply mem_jsUnion _ _ _ _ (Or.inr (Or.inr ?_))
      unfold associationsForQuery
      apply List.mem_append_right
      rw [hs]
      simp [hdot]

theorem fieldNamesRequested_spec_witness :
    ∃ L, fieldNamesRequested articleModel articleParams = some L ∧
      "id" ∈ L ∧ "title" ∈ L ∧ "author" ∈ L := by
  obtain ⟨L, hL, h1, h2, h3, h4⟩ :=
    (fieldNamesRequested_spec articleModel articleParams).2 "title" rfl (by decide)
  refine ⟨L, hL, h1 "id" rfl, h2 "title" (by decide), ?_⟩
  have h5 := h3 ("author:name", "bob") (by decide) (by decide)
  have e : (jsSplit "author:name" ':').headD "" = "author" := rfl
  rw [e] at h5
  exact h5

/-! ### C6 -/

/-- C6: a filter key containing the `':'` path separator is rewritten in the
constructed where-clause condition into the joined-table reference form
`"$" ++ (key with the first ':' replaced by '.') ++ "$"` (e.g. `author:name`
becomes `$author.name$`), and the association name before the separator is
added to the computed requested-field set whenever one is computed —
regardless of whether it appears in the explicitly requested field list. -/
theorem filterKey_path_rewrite (mn : String) (filter : List (String × String))
    (t : String) (tz : Option String) (k vs : String)
    (hk : (k, vs) ∈ filter) (hc : hasChar k ':' = true) (ht : t ≠ "") :
    (∀ v ∈ jsSplit vs ',',
      ({ key := "$" ++ replaceFirstColon k ++ "$"
         value := { modelName := mn, key := "$" ++ replaceFirstColon k ++ "$",
                    value := v, timezone := tz } } : ElemCond) ∈
        whereConds (handleFilterParams mn filter (some t) tz)) ∧
    (∀ (model : Model) (params : Params) (L : List String),
      params.filter = some filter →
      fieldNamesRequested model params = some L →
      (jsSplit k ':').headD "" ∈ L) := by
  constructor
  · intro v hv
    have e : handleFilterParams mn filter (some t) tz =
        .comb ("$" ++ t) (filterConditions mn tz filter) := by
      show (if t = "" then Where.empty
          else Where.comb ("$" ++ t) (filterConditions mn tz filter)) = _
      rw [if_neg ht]
    rw [e]
    show _ ∈ filterConditions mn tz filter
    rw [filterConditions_eq, List.mem_flatMap]
    refine ⟨(k, vs), hk, ?_⟩
    rw [List.mem_map]
    refine ⟨v, hv, ?_⟩
    simp [rewriteKey, hc]
  · intro model params L hpf hL
    apply assoc_mem_fieldNamesRequested model params L _ hL
    unfold associationsForQuery
    apply List.mem_append_left
    rw [List.mem_filterMap]
    refine ⟨(k, vs), ?_, ?_⟩
    · rw [hpf]
      exact hk
    · rw [hc]
      simp

theorem filterKey_path_rewrite_witness :
    ("$" ++ replaceFirstColon "author:name" ++ "$") = "$author.name$" ∧
    ({ key := "$author.name$"
       value := { modelName := "Article", key := "$author.name$",
                  value := "bob", timezone := none } } : ElemCond) ∈
      whereConds (handleFilterParams "Article" [("author:name", "bob")] (some "and") none) ∧
    (jsSplit "author:name" ':').headD "" ∈ (["id", "title", "author"] : List String) := by
  refine ⟨by decide, ?_, ?_⟩
  · have h := (filterKey_path_rewrite "Article" [("author:name", "bob")] "and" none
      "author:name" "bob" (by decide) (by decide) (by decide)).1 "bob" (by decide)
    have e : ("$" ++ replaceFirstColon "author:name" ++ "$") = "$author.name$" := by decide
    rw [e] at h
    exact h
  · exact (filterKey_path_rewrite "Article" [("author:name", "bob")] "and" none
      "author:name" "bob" (by decide) (by decide) (by decide)).2
      articleModel articleParams ["id", "title", "author"] rfl rfl

/-! ### C7 -/

/-- C7: when the requested segment's where-condition is a function, the
query plan resolves it by applying it to the request parameters before the
count and findAll options are built, and both option sets carry the
resolved value inside their top-level all-of list — never the function
itself (no `Where` constructor can hold a function). -/
theorem segment_function_resolved (model : Model) (schema : CollectionSchema)
    (params : Params) (segs : List Segment) (seg : Segment) (f : Params → Where)
    (sname : String)
    (h1 : schema.segments = some segs) (h2 : params.segment = some sname)
    (h3 : sname ≠ "") (h4 : segs.find? (fun sg => sg.name == sname) = some seg)
    (h5 : seg.whereSpec = some (SegWhere.fn f)) :
    ∃ plan ws, performPlan model schema params = Except.ok plan ∧
      plan.countOpts.whereCond = .andL ws ∧
      plan.findAllOpts.whereCond = .andL ws ∧
      f params ∈ ws := by
  have hseg : getSegment schema params = .ok (seg.scope, seg.whereSpec) := by
    unfold getSegment
    rw [h1, h2]
    show (if sname = ""
        then (Except.ok (none, none) : Except JsError (Option String × Option SegWhere))
        else match segs.find? (fun sg => sg.name == sname) with
          | some sg => Except.ok (sg.scope, sg.whereSpec)
          | none =>
            Except.error (JsError.typeError "Cannot read property scope of undefined")) = _
    rw [if_neg h3, h4]
  unfold performPlan
  rw [hseg]
  simp only [Except.map]
  refine ⟨_, _, rfl, rfl, rfl, ?_⟩
  rw [h5]
  show f params ∈ _ ++ _ ++ [f params]
  apply List.mem_append_right
  simp

theorem segment_function_resolved_witness :
    ∃ plan ws, performPlan articleModel segFnSchema segParams = Except.ok plan ∧
      plan.countOpts.whereCond = .andL ws ∧
      plan.findAllOpts.whereCond = .andL ws ∧
      Where.raw "resolvedSegmentCondition" ∈ ws :=
  segment_function_resolved articleModel segFnSchema segParams
    [{ name := "mine", whereSpec := some (.fn fun _ => Where.raw "resolvedSegmentCondition") }]
    { name := "mine", whereSpec := some (.fn fun _ => Where.raw "resolvedSegmentCondition") }
    (fun _ => Where.raw "resolvedSegmentCondition") "mine"
    rfl rfl (by decide) rfl rfl

/-! ### C8 -/

/-- C8: whenever the query plan is built, the count options and the findAll
options carry structurally equal where values and structurally equal
include values; the two option sets differ only in that the findAll options
additionally carry order, offset and limit (absent from the count
options). -/
theorem count_findAll_opts_agree (model : Model) (schema : CollectionSchema)
    (params : Params) (plan : Plan)
    (h : performPlan model schema params = Except.ok plan) :
    plan.countOpts.whereCond = plan.findAllOpts.whereCond ∧
    plan.countOpts.includeSpec = plan.findAllOpts.includeSpec ∧
    plan.countOpts.order = none ∧ plan.countOpts.offset = none ∧
    plan.countOpts.limit = none ∧
    plan.findAllOpts.order.isSome = true ∧ plan.findAllOpts.offset.isSome = true ∧
    plan.findAllOpts.limit.isSome = true := by
  unfold performPlan at h
  cases hg : getSegment schema params with
  | error e =>
    rw [hg] at h
    simp only [Except.map] at h
    exact Except.noConfusion h
  | ok seg =>
    rw [hg] at h
    simp only [Except.map] at h
    injection h with h2
    subst h2
    exact ⟨rfl, rfl, rfl, rfl, rfl, rfl, rfl, rfl⟩

theorem count_findAll_opts_agree_witness :
    ∃ plan, performPlan articleModel plainSchema emptyParams = Except.ok plan ∧
      plan.countOpts.whereCond = plan.findAllOpts.whereCond ∧
      plan.countOpts.order = none ∧ plan.findAllOpts.order.isSome = true := by
  refine ⟨_, rfl, ?_⟩
  have h := count_findAll_opts_agree articleModel plainSchema emptyParams _ rfl
  exact ⟨h.1, h.2.2.1, h.2.2.2.2.2.1⟩

/-! ### C9 -/

/-- C9: when the schema is composite-primary, the post-processing step
attaches to every returned record the `forestCompositePrimary` attribute
computed by the composite-keys manager from that record and leaves every
other attribute unchanged; when it is not, the records are returned
untouched, so (records coming from the backing collection carrying no such
attribute) no returned record carries a `forestCompositePrimary`
attribute. -/
theorem composite_postprocess (sch : CollectionSchema) (ckm : Rec → String)
    (rs : List Rec) :
    (sch.isCompositePrimary = true →
      postProcessRecords sch.isCompositePrimary ckm rs =
        rs.map (fun r => setAttr r "forestCompositePrimary" (ckm r)) ∧
      ∀ r ∈ rs,
        getAttr (setAttr r "forestCompositePrimary" (ckm r)) "forestCompositePrimary" =
          some (ckm r) ∧
        ∀ q, q ≠ "forestCompositePrimary" →
          getAttr (setAttr r "forestCompositePrimary" (ckm r)) q = getAttr r q) ∧
    (sch.isCompositePrimary = false →
      postProcessRecords sch.isCompositePrimary ckm rs = rs ∧
      ((∀ r ∈ rs, getAttr r "forestCompositePrimary" = none) →
        ∀ r ∈ postProcessRecords sch.isCompositePrimary ckm rs,
          getAttr r "forestCompositePrimary" = none)) := by
  constructor
  · intro h
    constructor
    · simp [postProcessRecords, h]
    · intro r _
      exact ⟨getAttr_setAttr_same r _ _, fun q hq => getAttr_setAttr_ne r _ _ q hq⟩
  · intro h
    have he : postProcessRecords sch.isCompositePrimary ckm rs = rs := by
      simp [postProcessRecords, h]
    refine ⟨he, ?_⟩
    intro hnone r hr
    rw [he] at hr
    exact hnone r hr

theorem composite_postprocess_witness :
    compositeSchema.isCompositePrimary = true ∧
    getAttr (setAttr sampleRecord "forestCompositePrimary" (sampleCkm sampleRecord))
      "forestCompositePrimary" = some (sampleCkm sampleRecord) ∧
    getAttr (setAttr sampleRecord "forestCompositePrimary" (sampleCkm sampleRecord))
      "userId" = getAttr sampleRecord "userId" ∧
    plainSchema.isCompositePrimary = false ∧
    postProcessRecords plainSchema.isCompositePrimary sampleCkm [sampleRecord] =
      [sampleRecord] := by
  refine ⟨rfl, ?_, ?_, rfl, ?_⟩
  · exact (((composite_postprocess compositeSchema sampleCkm [sampleRecord]).1
      rfl).2 sampleRecord (by decide)).1
  · exact (((composite_postprocess compositeSchema sampleCkm [sampleRecord]).1
      rfl).2 sampleRecord (by decide)).2 "userId" (by decide)
  · exact ((composite_postprocess plainSchema sampleCkm [sampleRecord]).2 rfl).1

/-! ### C10 -/

/-- C10: when the request names a segment, the schema declares a non-empty
segments list, and no declared segment bears the requested name, the plan
construction fails with the `TypeError` raised by reading `scope` on the
`undefined` lookup result — no query options are ever produced, instead of
proceeding without a segment. -/
theorem unknown_segment_throws (model : Model) (schema : CollectionSchema)
    (params : Params) (segs : List Segment) (sname : String)
    (h1 : schema.segments = some segs) (h2 : segs ≠ [])
    (h3 : params.segment = some sname) (h4 : sname ≠ "")
    (h5 : ∀ sg ∈ segs, sg.name ≠ sname) :
    performPlan model schema params =
      Except.error (.typeError "Cannot read property scope of undefined") := by
  have hfind : segs.find? (fun sg => sg.name == sname) = none := by
    rw [List.find?_eq_none]
    intro sg hsg
    simpa using h5 sg hsg
  have hseg : getSegment schema params =
      Except.error (.typeError "Cannot read property scope of undefined") := by
    unfold getSegment
    rw [h1, h3]
    show (if sname = ""
        then (Except.ok (none, none) : Except JsError (Option String × Option SegWhere))
        else match segs.find? (fun sg => sg.name == sname) with
          | some sg => Except.ok (sg.scope, sg.whereSpec)
          | none =>
            Except.error (JsError.typeError "Cannot read property scope of undefined")) = _
    rw [if_neg h4, hfind]
  unfold performPlan
  rw [hseg]
  rfl

theorem unknown_segment_throws_witness :
    performPlan articleModel segMissingSchema segMissingParams =
      Except.error (.typeError "Cannot read property scope of undefined") :=
  unknown_segment_throws articleModel segMissingSchema segMissingParams
    [{ name := "published" }] "draft" rfl (List.cons_ne_nil _ _) rfl (by decide)
    (by
      intro sg hsg
      rw [List.mem_singleton] at hsg
      subst hsg
      decide)

end ForestSequelize
